import Mathlib

/-!
Shallow embedding of the GPC-PR2 ray tracer (Rust) in Lean 4.

Scalars (Rust `f32`) are modelled as real numbers; `f32::INFINITY` used as the
"no hit yet" sentinel in the nearest-hit scan is modelled by `Option ℝ` scan
state (`none` = infinity), and the per-axis slab intervals use `EReal` so that
axis-parallel rays behave like the IEEE `±∞` quotients in the source.

Source files embedded: `src/main.rs` (shading core), `src/camera.rs`,
`src/framebuffer.rs`, `src/material.rs`, `src/skybox.rs`.  The repository's
`color.rs`, `light.rs`, `cube.rs` and `ray_intersect.rs` are not available;
those definitions are modelled from the specification and are marked
`Modelled from the spec:` in their doc comments.
-/

noncomputable section

/-- 3D vector (nalgebra_glm `Vec3`), components modelled as reals. -/
structure Vec3 where
  x : ℝ
  y : ℝ
  z : ℝ

instance : Add Vec3 := ⟨fun a b => ⟨a.x + b.x, a.y + b.y, a.z + b.z⟩⟩

instance : Sub Vec3 := ⟨fun a b => ⟨a.x - b.x, a.y - b.y, a.z - b.z⟩⟩

instance : Neg Vec3 := ⟨fun a => ⟨-a.x, -a.y, -a.z⟩⟩

instance : HMul ℝ Vec3 Vec3 := ⟨fun s v => ⟨s * v.x, s * v.y, s * v.z⟩⟩

instance : HMul Vec3 ℝ Vec3 := ⟨fun v s => ⟨v.x * s, v.y * s, v.z * s⟩⟩

/-- Dot product. -/
def Vec3.dot (a b : Vec3) : ℝ := a.x * b.x + a.y * b.y + a.z * b.z

/-- Euclidean length (`nalgebra` `magnitude`). -/
def Vec3.magnitude (v : Vec3) : ℝ := Real.sqrt (v.dot v)

/-- Unit vector in the direction of `v` (`nalgebra` `normalize`: `v / ‖v‖`). -/
def Vec3.normalize (v : Vec3) : Vec3 :=
  ⟨v.x / v.magnitude, v.y / v.magnitude, v.z / v.magnitude⟩

/-- Modelled from the spec: `color.rs` is not in the sources.  "an RGB color
value type supporting elementwise add/multiply/scale and clamping to a
displayable range" (spec §2). -/
structure Color where
  r : ℝ
  g : ℝ
  b : ℝ

instance : Add Color := ⟨fun a b => ⟨a.r + b.r, a.g + b.g, a.b + b.b⟩⟩

instance : Mul Color := ⟨fun a b => ⟨a.r * b.r, a.g * b.g, a.b * b.b⟩⟩

instance : HMul Color ℝ Color := ⟨fun c s => ⟨c.r * s, c.g * s, c.b * s⟩⟩

/-- Modelled from the spec: `Color::black()`, the identity/no-contribution color. -/
def Color.black : Color := ⟨0, 0, 0⟩

/-- Modelled from the spec: clamp each channel to the displayable range `[0,1]`
("Clamp each channel to the displayable range before returning", spec §4.3.6). -/
def Color.clamp (c : Color) : Color :=
  ⟨min (max c.r 0) 1, min (max c.g 0) 1, min (max c.b 0) 1⟩

/-- Interface of the `image` crate's `RgbaImage` as used by the sources
(spec §6 texture provider: width/height and pixel-at(x,y) → RGBA bytes). -/
structure RgbaImage where
  width : ℕ
  height : ℕ
  pixel : ℕ → ℕ → ℕ × ℕ × ℕ × ℕ

/-- Per-surface optical properties (`src/material.rs`). -/
structure Material where
  diffuse : Color
  specular : ℝ
  albedo : Fin 4 → ℝ
  refractive_index : ℝ
  texture : Option RgbaImage
  normal_map : Option RgbaImage
  emission : Color

/-- The default/no-contribution material (`Material::black`, `src/material.rs`). -/
def Material.black : Material :=
  { diffuse := Color.black
    specular := 0
    albedo := ![0, 0, 0, 0]
    refractive_index := 1
    texture := none
    normal_map := none
    emission := Color.black }

/-- Modelled from the spec: `light.rs` is not in the sources.
"Light: (position: Vec3, color: Color, intensity: scalar)" (spec §3). -/
structure Light where
  position : Vec3
  color : Color
  intensity : ℝ

/-- Fallback light used to totalize the `&lights[light_index]` lookup of
`cast_shadow`; the shading loop only ever indexes in bounds. -/
def Light.dummy : Light := ⟨⟨0, 0, 0⟩, Color.black, 0⟩

/-- Modelled from the spec: `ray_intersect.rs` is not in the sources.
"Intersect: hit flag, hit distance, world-space hit point, surface normal,
resolved material" (spec §3).  The spec's `distance = +infinity` sentinel of
the empty record is conveyed by `is_intersecting = false` (the scan in
`cast_ray` models the `f32::INFINITY` start value separately). -/
structure Intersect where
  is_intersecting : Bool
  distance : ℝ
  point : Vec3
  normal : Vec3
  material : Material

/-- Modelled from the spec: the empty/no-hit record (spec §3). -/
def Intersect.empty : Intersect :=
  { is_intersecting := false
    distance := 0
    point := ⟨0, 0, 0⟩
    normal := ⟨0, 0, 0⟩
    material := Material.black }

/-- Axis-aligned cube block (`src/main.rs` scene objects; `cube.rs` missing). -/
structure Cube where
  min_corner : Vec3
  max_corner : Vec3
  material : Material

/-- Rust `f32 as u32` cast for the non-NaN case: truncation toward zero,
saturating at 0 for negative values. -/
def f32ToU32 (x : ℝ) : ℕ := (⌊x⌋).toNat

/-- Modelled from the spec: one slab of the slab method (spec §4.2): the
parametric entry/exit interval of the ray against one axis-aligned slab.
`EReal` endpoints model the infinite quotients of axis-parallel rays: a ray
parallel to the slab and inside it is constrained by `(-∞, +∞)`, outside by
the empty interval `(+∞, -∞)`. -/
def slabInterval (o d lo hi : ℝ) : EReal × EReal :=
  if d = 0 then
    if lo ≤ o ∧ o ≤ hi then ((⊥ : EReal), (⊤ : EReal)) else ((⊤ : EReal), (⊥ : EReal))
  else
    (((min ((lo - o) / d) ((hi - o) / d) : ℝ) : EReal),
     ((max ((lo - o) / d) ((hi - o) / d) : ℝ) : EReal))

/-- Modelled from the spec: face-local UV coordinates of a hit point, "derived
from the hit point's fractional position on the hit face" (spec §4.2). -/
def faceUV (c : Cube) (point normal : Vec3) : ℝ × ℝ :=
  if normal.x ≠ 0 then
    ((point.z - c.min_corner.z) / (c.max_corner.z - c.min_corner.z),
     (point.y - c.min_corner.y) / (c.max_corner.y - c.min_corner.y))
  else if normal.y ≠ 0 then
    ((point.x - c.min_corner.x) / (c.max_corner.x - c.min_corner.x),
     (point.z - c.min_corner.z) / (c.max_corner.z - c.min_corner.z))
  else
    ((point.x - c.min_corner.x) / (c.max_corner.x - c.min_corner.x),
     (point.y - c.min_corner.y) / (c.max_corner.y - c.min_corner.y))

/-- Modelled from the spec: "If the material carries a texture, sample it using
face-local UV coordinates ... and use the sampled texel as the reported diffuse
color instead of the material's flat diffuse color" (spec §4.2). -/
def resolveMaterial (c : Cube) (point normal : Vec3) : Material :=
  match c.material.texture with
  | none => c.material
  | some tex =>
    let uv := faceUV c point normal
    let tx := min (f32ToU32 (uv.1 * ((tex.width - 1 : ℕ) : ℝ))) (tex.width - 1)
    let ty := min (f32ToU32 (uv.2 * ((tex.height - 1 : ℕ) : ℝ))) (tex.height - 1)
    let px := tex.pixel tx ty
    { c.material with diffuse := ⟨(px.1 : ℝ) / 255, (px.2.1 : ℝ) / 255, (px.2.2.1 : ℝ) / 255⟩ }

/-- Modelled from the spec: `cube.rs` is not in the sources.  The slab method
ray/box test (spec §4.2): intersect the three per-axis intervals; "a hit exists
iff the resulting interval's near bound ≤ far bound and far bound > 0.  Report
the nearest strictly-positive entry distance; compute the outward surface
normal as the axis-aligned unit vector corresponding to whichever slab boundary
produced the entry distance". -/
def Cube.ray_intersect (c : Cube) (origin direction : Vec3) : Intersect :=
  let ix := slabInterval origin.x direction.x c.min_corner.x c.max_corner.x
  let iy := slabInterval origin.y direction.y c.min_corner.y c.max_corner.y
  let iz := slabInterval origin.z direction.z c.min_corner.z c.max_corner.z
  let tnear := max (max ix.1 iy.1) iz.1
  let tfar := min (min ix.2 iy.2) iz.2
  if tnear ≤ tfar ∧ (0 : EReal) < tfar then
    let t := (if (0 : EReal) < tnear then tnear else tfar).toReal
    let point := origin + t * direction
    let normal :=
      if ix.1 = tnear then (if 0 < direction.x then Vec3.mk (-1) 0 0 else Vec3.mk 1 0 0)
      else if iy.1 = tnear then (if 0 < direction.y then Vec3.mk 0 (-1) 0 else Vec3.mk 0 1 0)
      else (if 0 < direction.z then Vec3.mk 0 0 (-1) else Vec3.mk 0 0 1)
    { is_intersecting := true
      distance := t
      point := point
      normal := normal
      material := resolveMaterial c point normal }
  else Intersect.empty

/-- Six-face cubemap (`src/skybox.rs`). -/
structure Skybox where
  right : RgbaImage
  left : RgbaImage
  top : RgbaImage
  bottom : RgbaImage
  front : RgbaImage
  back : RgbaImage

/-- The six cube faces of the skybox. -/
inductive Face where
  | right
  | left
  | top
  | bottom
  | front
  | back

/-- The face-selection chain of `Skybox::get_color_from_direction`
(`src/skybox.rs` lines 54-90), applied to the normalized direction. -/
def chosenFace (dir : Vec3) : Face :=
  if 0 < dir.x ∧ |dir.x| ≥ |dir.y| ∧ |dir.x| ≥ |dir.z| then .right
  else if ¬0 < dir.x ∧ |dir.x| ≥ |dir.y| ∧ |dir.x| ≥ |dir.z| then .left
  else if 0 < dir.y ∧ |dir.y| ≥ |dir.x| ∧ |dir.y| ≥ |dir.z| then .top
  else if ¬0 < dir.y ∧ |dir.y| ≥ |dir.x| ∧ |dir.y| ≥ |dir.z| then .bottom
  else if 0 < dir.z ∧ |dir.z| ≥ |dir.x| ∧ |dir.z| ≥ |dir.y| then .front
  else .back

/-- The per-branch data `(max_axis, uc, vc, face_texture)` assigned by
`Skybox::get_color_from_direction` for each face (`src/skybox.rs`). -/
def faceData (sb : Skybox) (f : Face) (dir : Vec3) : ℝ × ℝ × ℝ × RgbaImage :=
  match f with
  | .right => (|dir.x|, -dir.z, dir.y, sb.right)
  | .left => (|dir.x|, dir.z, dir.y, sb.left)
  | .top => (|dir.y|, dir.x, -dir.z, sb.top)
  | .bottom => (|dir.y|, dir.x, dir.z, sb.bottom)
  | .front => (|dir.z|, dir.x, dir.y, sb.front)
  | .back => (|dir.z|, -dir.x, dir.y, sb.back)

/-- The common UV/texel tail of `Skybox::get_color_from_direction`
(`src/skybox.rs` lines 92-103) applied to the data of face `f`. -/
def faceSample (sb : Skybox) (f : Face) (dir : Vec3) : Color :=
  let fd := faceData sb f dir
  let max_axis := fd.1
  let uc := fd.2.1
  let vc := fd.2.2.1
  let tex := fd.2.2.2
  let u := 0.5 * (uc / max_axis + 1)
  let v := 0.5 * (vc / max_axis + 1)
  let tex_x := f32ToU32 (u * ((tex.width - 1 : ℕ) : ℝ))
  let tex_y := f32ToU32 ((1 - v) * ((tex.height - 1 : ℕ) : ℝ))
  let px := tex.pixel (min tex_x (tex.width - 1)) (min tex_y (tex.height - 1))
  ⟨(px.1 : ℝ) / 255, (px.2.1 : ℝ) / 255, (px.2.2.1 : ℝ) / 255⟩

/-- `Skybox::get_color_from_direction` (`src/skybox.rs`): normalize the
direction, select the cube face, sample that face's texture. -/
def Skybox.get_color_from_direction (sb : Skybox) (direction : Vec3) : Color :=
  let dir := direction.normalize
  faceSample sb (chosenFace dir) dir

/-- `ORIGIN_BIAS` (`src/main.rs` line 25). -/
def ORIGIN_BIAS : ℝ := 1e-4

/-- `offset_origin` (`src/main.rs` lines 27-34). -/
def offset_origin (intersect : Intersect) (direction : Vec3) : Vec3 :=
  let offset := intersect.normal * ORIGIN_BIAS
  if direction.dot intersect.normal < 0 then intersect.point - offset
  else intersect.point + offset

/-- `reflect` (`src/main.rs` lines 36-38). -/
def reflect (incident normal : Vec3) : Vec3 :=
  incident - (2 * incident.dot normal) * normal

/-- The oriented triple `(n_cosi, eta, n_normal)` computed by `refract`
(`src/main.rs` lines 41-52) before the radicand test. -/
def refractOriented (incident normal : Vec3) (eta_t : ℝ) : ℝ × ℝ × Vec3 :=
  let cosi := -(min (max (incident.dot normal) (-1)) 1)
  if cosi < 0 then (-cosi, 1 / eta_t, -normal) else (cosi, eta_t, normal)

/-- `refract` (`src/main.rs` lines 40-61): Snell refraction with fallback to
pure reflection when the radicand is negative (total internal reflection). -/
def refract (incident normal : Vec3) (eta_t : ℝ) : Vec3 :=
  let t := refractOriented incident normal eta_t
  let n_cosi := t.1
  let eta := t.2.1
  let n_normal := t.2.2
  let k := 1 - eta * eta * (1 - n_cosi * n_cosi)
  if k < 0 then reflect incident n_normal
  else eta * incident + (eta * n_cosi - Real.sqrt k) * n_normal

/-- Rust `f32::clamp(lo, hi)` for `lo ≤ hi`. -/
def clampR (v lo hi : ℝ) : ℝ := min (max v lo) hi

/-- `fresnel` (`src/main.rs` lines 64-79): full Fresnel reflectance with
early return 1 on total internal reflection. -/
def fresnel (incident normal : Vec3) (ior : ℝ) : ℝ :=
  let cosi := clampR (incident.dot normal) (-1) 1
  let etai := (1 : ℝ)
  let etat := ior
  let sint := etai / etat * Real.sqrt (1 - cosi * cosi)
  if sint ≥ 1 then 1
  else
    let cost := Real.sqrt (1 - sint * sint)
    let cosiAbs := |cosi|
    let rs := (etat * cosiAbs - etai * cost) / (etat * cosiAbs + etai * cost)
    let rp := (etai * cosiAbs - etat * cost) / (etai * cosiAbs + etat * cost)
    (rs * rs + rp * rp) / 2

/-- The occlusion scan of `cast_shadow` (`src/main.rs` lines 94-101): walk the
objects in order and stop at the first one hit strictly closer than the light. -/
def shadowLoop (objects : List Cube) (shadow_ray_origin light_dir : Vec3)
    (light_distance : ℝ) : ℝ :=
  match objects with
  | [] => 0
  | object :: rest =>
    let shadow_intersect := object.ray_intersect shadow_ray_origin light_dir
    if shadow_intersect.is_intersecting = true ∧ shadow_intersect.distance < light_distance then
      let distance_ratio := shadow_intersect.distance / light_distance
      1 - min (distance_ratio ^ (2 : ℝ)) 1
    else shadowLoop rest shadow_ray_origin light_dir light_distance

/-- `cast_shadow` (`src/main.rs` lines 81-104).  The `&lights[light_index]`
lookup is totalized with `Light.dummy`; all call sites index in bounds. -/
def cast_shadow (intersect : Intersect) (lights : List Light) (objects : List Cube)
    (light_index : ℕ) : ℝ :=
  let light := lights.getD light_index Light.dummy
  let light_dir := (light.position - intersect.point).normalize
  let light_distance := (light.position - intersect.point).magnitude
  let shadow_ray_origin := offset_origin intersect light_dir
  shadowLoop objects shadow_ray_origin light_dir light_distance

/-- The bias-offset origin of the shadow ray cast from a hit point toward a
light (`src/main.rs` line 91). -/
def shadowRayOrigin (intersect : Intersect) (light : Light) : Vec3 :=
  offset_origin intersect ((light.position - intersect.point).normalize)

/-- A cube occludes the light from a hit point: the bias-offset shadow ray
hits it strictly closer than the light (`src/main.rs` line 96). -/
def occludes (intersect : Intersect) (light : Light) (c : Cube) : Prop :=
  (c.ray_intersect (shadowRayOrigin intersect light)
      ((light.position - intersect.point).normalize)).is_intersecting = true ∧
  (c.ray_intersect (shadowRayOrigin intersect light)
      ((light.position - intersect.point).normalize)).distance <
    (light.position - intersect.point).magnitude

/-- Distance at which the shadow ray hits an occluder. -/
def occluderDistance (intersect : Intersect) (light : Light) (c : Cube) : ℝ :=
  (c.ray_intersect (shadowRayOrigin intersect light)
      ((light.position - intersect.point).normalize)).distance

/-- One step of the nearest-hit scan of `cast_ray` (`src/main.rs` lines
121-127).  The scan state is `(closest_intersect, min_distance)`; the
`f32::INFINITY` start value of `min_distance` is modelled by `none`. -/
def scanFold (origin direction : Vec3) (acc : Intersect × Option ℝ) (object : Cube) :
    Intersect × Option ℝ :=
  let intersect := object.ray_intersect origin direction
  if intersect.is_intersecting = true then
    match acc.2 with
    | none => (intersect, some intersect.distance)
    | some m => if intersect.distance < m then (intersect, some intersect.distance) else acc
  else acc

/-- The nearest hit among the scene objects (`src/main.rs` lines 118-127). -/
def scanClosest (objects : List Cube) (origin direction : Vec3) : Intersect :=
  (objects.foldl (scanFold origin direction) (Intersect.empty, none)).1

/-- The per-light accumulation loop of `cast_ray` (`src/main.rs` lines
137-157), returning `(diffuse, specular)`. -/
def lightingSums (intersect : Intersect) (lights : List Light) (objects : List Cube)
    (ray_origin : Vec3) : Color × Color :=
  lights.enum.foldl (fun acc il =>
    let light := il.2
    let light_dir := (light.position - intersect.point).normalize
    let view_dir := (ray_origin - intersect.point).normalize
    let reflect_dir := (reflect (-light_dir) intersect.normal).normalize
    let shadow_intensity := cast_shadow intersect lights objects il.1
    let light_intensity := light.intensity * (1 - shadow_intensity)
    let diffuse_intensity := max (intersect.normal.dot light_dir) 0
    let specular_intensity := (max (view_dir.dot reflect_dir) 0) ^ intersect.material.specular
    (acc.1 + (intersect.material.diffuse * light.color) * diffuse_intensity * light_intensity,
     acc.2 + light.color * specular_intensity * light_intensity))
    (Color.black, Color.black)

/-- `cast_ray` (`src/main.rs` lines 106-207): recursive Whitted-style ray
evaluation with depth guard, nearest-hit scan, direct lighting, Fresnel split
and reflection/refraction recursion. -/
def cast_ray (ray_origin ray_direction : Vec3) (objects : List Cube)
    (lights : List Light) (depth : ℕ) (skybox : Skybox) : Color :=
  if _h : 3 < depth then skybox.get_color_from_direction ray_direction
  else
    let intersect := scanClosest objects ray_origin ray_direction
    if intersect.is_intersecting = false then skybox.get_color_from_direction ray_direction
    else
      let sums := lightingSums intersect lights objects ray_origin
      let diffuse := sums.1
      let specular := sums.2
      let kr := fresnel ray_direction intersect.normal intersect.material.refractive_index
      let reflectivity := kr * intersect.material.albedo 2
      let transparency := (1 - kr) * intersect.material.albedo 3
      let reflect_color :=
        if 0 < reflectivity then
          let reflect_dir := (reflect ray_direction intersect.normal).normalize
          let reflect_origin := offset_origin intersect reflect_dir
          cast_ray reflect_origin reflect_dir objects lights (depth + 1) skybox
        else Color.black
      let refract_color :=
        if 0 < transparency then
          let refract_dir :=
            (refract ray_direction intersect.normal intersect.material.refractive_index).normalize
          let refract_origin := offset_origin intersect refract_dir
          cast_ray refract_origin refract_dir objects lights (depth + 1) skybox
        else Color.black
      (intersect.material.emission +
        (diffuse * intersect.material.albedo 0 + specular * intersect.material.albedo 1) *
          (1 - reflectivity - transparency) +
        reflect_color * reflectivity + refract_color * transparency).clamp
termination_by 4 - depth
decreasing_by
  all_goals omega

/-- Rust `f32` truncation toward zero (used by the `%` remainder). -/
def rustTrunc (x : ℝ) : ℤ := if 0 ≤ x then ⌊x⌋ else ⌈x⌉

/-- Rust `%` on floats: remainder with the sign of the dividend,
`x - y * trunc(x / y)`. -/
def rustRem (x y : ℝ) : ℝ := x - y * (rustTrunc (x / y) : ℝ)

/-- Four-quadrant arctangent, `y.atan2(x)` of Rust `f32`. -/
def atan2 (y x : ℝ) : ℝ :=
  if 0 < x then Real.arctan (y / x)
  else if x < 0 then
    if 0 ≤ y then Real.arctan (y / x) + Real.pi else Real.arctan (y / x) - Real.pi
  else
    if 0 < y then Real.pi / 2 else if y < 0 then -(Real.pi / 2) else 0

/-- Camera rig (`src/camera.rs`). -/
structure Camera where
  position : Vec3
  target : Vec3
  up_direction : Vec3

/-- `Camera::rotate_around_target` (`src/camera.rs` lines 27-42): orbit the
position around the target by yaw/pitch deltas at constant radius, with the
pitch clamped 0.1 rad inside the poles. -/
def Camera.rotate_around_target (cam : Camera) (delta_yaw delta_pitch : ℝ) : Camera :=
  let offset := cam.position - cam.target
  let radius := offset.magnitude
  let current_yaw := atan2 offset.z offset.x
  let xz_distance := Real.sqrt (offset.x * offset.x + offset.z * offset.z)
  let current_pitch := atan2 (-offset.y) xz_distance
  let adjusted_yaw := rustRem (current_yaw + delta_yaw) (2 * Real.pi)
  let adjusted_pitch :=
    clampR (current_pitch + delta_pitch) (-(Real.pi / 2) + 0.1) (Real.pi / 2 - 0.1)
  { cam with
    position := cam.target + Vec3.mk
      (radius * Real.cos adjusted_yaw * Real.cos adjusted_pitch)
      (-(radius * Real.sin adjusted_pitch))
      (radius * Real.sin adjusted_yaw * Real.cos adjusted_pitch) }

/-- A sequence of orbit operations applied in order. -/
def applyDeltas (cam : Camera) (deltas : List (ℝ × ℝ)) : Camera :=
  deltas.foldl (fun c p => c.rotate_around_target p.1 p.2) cam

/-- The pitch of a camera's position relative to its target, computed exactly
as `rotate_around_target` computes `current_pitch` (`src/camera.rs` lines
30-32). -/
def camPitch (c : Camera) : ℝ :=
  let offset := c.position - c.target
  atan2 (-offset.y) (Real.sqrt (offset.x * offset.x + offset.z * offset.z))

/-- Framebuffer (`src/framebuffer.rs`); the pixel buffer is a flat row-major
list. -/
structure Framebuffer where
  width : ℕ
  height : ℕ
  buffer : List Color
  background_color : Color
  current_color : Color

/-- `Framebuffer::point` (`src/framebuffer.rs` lines 29-33): write the current
color at `(x, y)` if in range, otherwise do nothing. -/
def Framebuffer.point (fb : Framebuffer) (x y : ℕ) : Framebuffer :=
  if x < fb.width ∧ y < fb.height then
    { fb with buffer := fb.buffer.set (y * fb.width + x) fb.current_color }
  else fb

/-- The face chooser described by the claim: "the face whose axis has the
largest-magnitude component of the normalized direction, with ties resolved by
axis priority X over Y over Z and sign chosen by the component's sign". -/
def specFace (n : Vec3) : Face :=
  if |n.x| ≥ |n.y| ∧ |n.x| ≥ |n.z| then (if 0 < n.x then .right else .left)
  else if |n.y| ≥ |n.z| then (if 0 < n.y then .top else .bottom)
  else (if 0 < n.z then .front else .back)

/-- The signed component of a vector along a face's axis. -/
def Face.component (f : Face) (n : Vec3) : ℝ :=
  match f with
  | .right => n.x
  | .left => n.x
  | .top => n.y
  | .bottom => n.y
  | .front => n.z
  | .back => n.z

/-- Whether a face is on the positive side of its axis. -/
def Face.isPositive (f : Face) : Bool :=
  match f with
  | .right => true
  | .left => false
  | .top => true
  | .bottom => false
  | .front => true
  | .back => false

/-! Concrete scene data used by the witnesses and counterexamples. -/

/-- A 1×1 constant texture for the concrete witness scenes. -/
def texU : RgbaImage := ⟨1, 1, fun _ _ => (0, 0, 0, 255)⟩

/-- A concrete skybox for the witness scenes. -/
def skyU : Skybox := ⟨texU, texU, texU, texU, texU, texU⟩

/-- Fully opaque, non-reflective, non-transparent red material
(`albedo = [1,0,0,0]`), specular exponent 1, no texture, no emission. -/
def matR : Material :=
  { diffuse := ⟨4 / 5, 0, 0⟩
    specular := 1
    albedo := ![1, 0, 0, 0]
    refractive_index := 1
    texture := none
    normal_map := none
    emission := Color.black }

/-- The unit cube `[0,1]³` with the opaque red material. -/
def cubeR : Cube := ⟨⟨0, 0, 0⟩, ⟨1, 1, 1⟩, matR⟩

/-- White light of intensity 2 directly above the top face of `cubeR`. -/
def lightW : Light := ⟨⟨1 / 2, 11, 1 / 2⟩, ⟨1, 1, 1⟩, 2⟩

/-- Occluder cube hanging above the origin, for the shadow witness. -/
def cubeOcc : Cube := ⟨⟨-1, 4, -1⟩, ⟨1, 5, 1⟩, Material.black⟩

/-- Hand-made hit record at the origin with upward normal, for the shadow
witness. -/
def itW : Intersect := ⟨true, 1, ⟨0, 0, 0⟩, ⟨0, 1, 0⟩, Material.black⟩

/-- White light at height 10 above the origin, for the shadow witness. -/
def lightS : Light := ⟨⟨0, 10, 0⟩, ⟨1, 1, 1⟩, 1⟩

/-- The hit record produced by the ray `(1/2,3,1/2) + t(0,-1,0)` on the top
face of `cubeR`. -/
def itC : Intersect := ⟨true, 2, ⟨1 / 2, 1, 1 / 2⟩, ⟨0, 1, 0⟩, matR⟩

end

attribute [ext] Vec3 Color

/-! ### Component lemmas for the vector and color operations -/

@[simp] theorem Vec3.add_x (a b : Vec3) : (a + b).x = a.x + b.x := rfl

@[simp] theorem Vec3.add_y (a b : Vec3) : (a + b).y = a.y + b.y := rfl

@[simp] theorem Vec3.add_z (a b : Vec3) : (a + b).z = a.z + b.z := rfl

@[simp] theorem Vec3.sub_x (a b : Vec3) : (a - b).x = a.x - b.x := rfl

@[simp] theorem Vec3.sub_y (a b : Vec3) : (a - b).y = a.y - b.y := rfl

@[simp] theorem Vec3.sub_z (a b : Vec3) : (a - b).z = a.z - b.z := rfl

@[simp] theorem Vec3.neg_x (a : Vec3) : (-a).x = -a.x := rfl

@[simp] theorem Vec3.neg_y (a : Vec3) : (-a).y = -a.y := rfl

@[simp] theorem Vec3.neg_z (a : Vec3) : (-a).z = -a.z := rfl

@[simp] theorem Vec3.smul_x (s : ℝ) (v : Vec3) : (s * v).x = s * v.x := rfl

@[simp] theorem Vec3.smul_y (s : ℝ) (v : Vec3) : (s * v).y = s * v.y := rfl

@[simp] theorem Vec3.smul_z (s : ℝ) (v : Vec3) : (s * v).z = s * v.z := rfl

@[simp] theorem Vec3.muls_x (v : Vec3) (s : ℝ) : (v * s).x = v.x * s := rfl

@[simp] theorem Vec3.muls_y (v : Vec3) (s : ℝ) : (v * s).y = v.y * s := rfl

@[simp] theorem Vec3.muls_z (v : Vec3) (s : ℝ) : (v * s).z = v.z * s := rfl

@[simp] theorem Color.add_r (a b : Color) : (a + b).r = a.r + b.r := rfl

@[simp] theorem Color.add_g (a b : Color) : (a + b).g = a.g + b.g := rfl

@[simp] theorem Color.add_b (a b : Color) : (a + b).b = a.b + b.b := rfl

@[simp] theorem Color.mul_r (a b : Color) : (a * b).r = a.r * b.r := rfl

@[simp] theorem Color.mul_g (a b : Color) : (a * b).g = a.g * b.g := rfl

@[simp] theorem Color.mul_b (a b : Color) : (a * b).b = a.b * b.b := rfl

@[simp] theorem Color.muls_r (c : Color) (s : ℝ) : (c * s).r = c.r * s := rfl

@[simp] theorem Color.muls_g (c : Color) (s : ℝ) : (c * s).g = c.g * s := rfl

@[simp] theorem Color.muls_b (c : Color) (s : ℝ) : (c * s).b = c.b * s := rfl

theorem Color.muls_zero (c : Color) : c * (0 : ℝ) = Color.black := by
  ext <;> simp [Color.black]

theorem Color.muls_one (c : Color) : c * (1 : ℝ) = c := by
  ext <;> simp

theorem Color.add_black (c : Color) : c + Color.black = c := by
  ext <;> simp [Color.black]

theorem Color.black_add (c : Color) : Color.black + c = c := by
  ext <;> simp [Color.black]

/-! ### Evaluation helpers for square roots, magnitudes and normalization -/

theorem sqrt_eval {a b : ℝ} (hb : 0 ≤ b) (h : a = b ^ 2) : Real.sqrt a = b := by
  rw [h, Real.sqrt_sq hb]

theorem magnitude_eval {v : Vec3} {c : ℝ} (hc : 0 ≤ c)
    (h : v.x * v.x + v.y * v.y + v.z * v.z = c ^ 2) : v.magnitude = c := by
  rw [Vec3.magnitude, Vec3.dot]; exact sqrt_eval hc h

theorem normalize_eval {v : Vec3} {c : ℝ} (hc : 0 ≤ c)
    (h : v.x * v.x + v.y * v.y + v.z * v.z = c ^ 2) :
    v.normalize = ⟨v.x / c, v.y / c, v.z / c⟩ := by
  rw [Vec3.normalize, magnitude_eval hc h]

theorem magnitude_nonneg (v : Vec3) : 0 ≤ v.magnitude := Real.sqrt_nonneg _

theorem magnitude_pos {v : Vec3} (h : v ≠ ⟨0, 0, 0⟩) : 0 < v.magnitude := by
  rw [Vec3.magnitude, Vec3.dot]
  apply Real.sqrt_pos.mpr
  have hsum : (0:ℝ) ≤ v.x * v.x + v.y * v.y + v.z * v.z := by
    nlinarith [sq_nonneg v.x, sq_nonneg v.y, sq_nonneg v.z]
  rcases lt_or_eq_of_le hsum with h' | h'
  · exact h'
  · exfalso
    apply h
    have hx : v.x = 0 := by nlinarith [sq_nonneg v.x, sq_nonneg v.y, sq_nonneg v.z]
    have hy : v.y = 0 := by nlinarith [sq_nonneg v.x, sq_nonneg v.y, sq_nonneg v.z]
    have hz : v.z = 0 := by nlinarith [sq_nonneg v.x, sq_nonneg v.y, sq_nonneg v.z]
    ext <;> assumption

/-! ### C1: depth guard -/

/-- C1: for every ray, scene, light list and depth strictly greater than 3,
`cast_ray` returns exactly the skybox color sampled along the ray direction,
before any intersection test, so the result is independent of the scene. -/
theorem cast_ray_depth_guard (ray_origin ray_direction : Vec3) (objects : List Cube)
    (lights : List Light) (depth : ℕ) (skybox : Skybox) (h : 3 < depth) :
    cast_ray ray_origin ray_direction objects lights depth skybox =
      skybox.get_color_from_direction ray_direction := by
  rw [cast_ray]
  exact dif_pos h

/-! ### C7 and C8: refraction -/

/-- C7: with `eta_t = 1` (no index mismatch), `refract` returns the incident
direction unchanged for every incident direction and unit normal. -/
theorem refract_identity_eta_one (incident normal : Vec3)
    (_h : normal.magnitude = 1) : refract incident normal 1 = incident := by
  unfold refract refractOriented
  set c := -(min (max (incident.dot normal) (-1)) 1) with hc
  by_cases hneg : c < 0
  · rw [if_pos hneg]
    dsimp only
    have hn : (0:ℝ) ≤ -c := by linarith
    have hk : 1 - 1 / 1 * (1 / 1) * (1 - -c * -c) = (-c) ^ 2 := by ring
    rw [hk, if_neg (not_lt.mpr (by positivity)), Real.sqrt_sq hn]
    ext <;> simp
  · rw [if_neg hneg]
    dsimp only
    push_neg at hneg
    have hk : 1 - 1 * 1 * (1 - c * c) = c ^ 2 := by ring
    rw [hk, if_neg (not_lt.mpr (by positivity)), Real.sqrt_sq hneg]
    ext <;> simp

/-- C7 witness: concrete instance with unit normal `(0,1,0)` and incident
`(3,-4,0)`. -/
theorem refract_identity_eta_one_witness :
    refract ⟨3, -4, 0⟩ ⟨0, 1, 0⟩ 1 = ⟨3, -4, 0⟩ :=
  refract_identity_eta_one ⟨3, -4, 0⟩ ⟨0, 1, 0⟩
    (magnitude_eval (by norm_num) (by norm_num))

/-- C8: when the refraction radicand `k = 1 - eta²(1 - cos²)` is negative
(total internal reflection), `refract` returns the pure reflection of the
incident direction about the oriented normal, and the square root is never
applied to the negative radicand. -/
theorem refract_total_internal_reflection (incident normal : Vec3) (eta_t : ℝ)
    (hk : 1 - (refractOriented incident normal eta_t).2.1 *
        (refractOriented incident normal eta_t).2.1 *
        (1 - (refractOriented incident normal eta_t).1 *
          (refractOriented incident normal eta_t).1) < 0) :
    refract incident normal eta_t =
      reflect incident (refractOriented incident normal eta_t).2.2 := by
  unfold refract
  rw [if_pos hk]

/-- C8 witness: incident `(1,0,0)` grazing a surface with normal `(0,1,0)` at
`eta_t = 2` has radicand `1 - 4 = -3 < 0` and falls back to pure reflection. -/
theorem refract_total_internal_reflection_witness :
    1 - (refractOriented ⟨1, 0, 0⟩ ⟨0, 1, 0⟩ 2).2.1 *
        (refractOriented ⟨1, 0, 0⟩ ⟨0, 1, 0⟩ 2).2.1 *
        (1 - (refractOriented ⟨1, 0, 0⟩ ⟨0, 1, 0⟩ 2).1 *
          (refractOriented ⟨1, 0, 0⟩ ⟨0, 1, 0⟩ 2).1) < 0 ∧
    refract ⟨1, 0, 0⟩ ⟨0, 1, 0⟩ 2 =
      reflect ⟨1, 0, 0⟩ (refractOriented ⟨1, 0, 0⟩ ⟨0, 1, 0⟩ 2).2.2 := by
  have hor : refractOriented ⟨1, 0, 0⟩ ⟨0, 1, 0⟩ 2 = (0, 2, ⟨0, 1, 0⟩) := by
    unfold refractOriented
    rw [Vec3.dot]
    norm_num
  have hk : 1 - (refractOriented ⟨1, 0, 0⟩ ⟨0, 1, 0⟩ 2).2.1 *
      (refractOriented ⟨1, 0, 0⟩ ⟨0, 1, 0⟩ 2).2.1 *
      (1 - (refractOriented ⟨1, 0, 0⟩ ⟨0, 1, 0⟩ 2).1 *
        (refractOriented ⟨1, 0, 0⟩ ⟨0, 1, 0⟩ 2).1) < 0 := by
    rw [hor]; norm_num
  exact ⟨hk, refract_total_internal_reflection ⟨1, 0, 0⟩ ⟨0, 1, 0⟩ 2 hk⟩

/-- C1 witness: depth 4 short-circuits to the skybox even though the ray
would hit the cube. -/
theorem cast_ray_depth_guard_witness :
    cast_ray ⟨1 / 2, 3, 1 / 2⟩ ⟨0, -1, 0⟩ [cubeR] [lightW] 4 skyU =
      skyU.get_color_from_direction ⟨0, -1, 0⟩ :=
  cast_ray_depth_guard _ _ _ _ 4 _ (by norm_num)

/-! ### C10: framebuffer point -/

/-- C10: out-of-range `point` calls leave the pixel buffer unchanged, and
in-range calls write the current color to exactly index `y*width + x`,
leaving every other index unchanged. -/
theorem framebuffer_point_spec (fb : Framebuffer) (x y : ℕ)
    (hlen : fb.buffer.length = fb.width * fb.height) :
    ((fb.width ≤ x ∨ fb.height ≤ y) → (fb.point x y).buffer = fb.buffer) ∧
    (x < fb.width → y < fb.height →
      (fb.point x y).buffer[y * fb.width + x]? = some fb.current_color ∧
      ∀ j, j ≠ y * fb.width + x → (fb.point x y).buffer[j]? = fb.buffer[j]?) := by
  constructor
  · intro hout
    rw [Framebuffer.point, if_neg]
    rintro ⟨hx, hy⟩
    rcases hout with h | h <;> omega
  · intro hx hy
    rw [Framebuffer.point, if_pos ⟨hx, hy⟩]
    have hidx : y * fb.width + x < fb.buffer.length := by
      rw [hlen]
      calc y * fb.width + x < y * fb.width + fb.width := by omega
        _ = (y + 1) * fb.width := by ring
        _ ≤ fb.height * fb.width := Nat.mul_le_mul_right _ (by omega)
        _ = fb.width * fb.height := Nat.mul_comm _ _
    exact ⟨List.getElem?_set_eq_of_lt _ hidx, fun j hj => List.getElem?_set_ne (by omega)⟩

/-- C10 witness: a 2×2 framebuffer; the write at `(1,0)` lands at flat index
1 and leaves other pixels alone, and the write at `(3,0)` is ignored. -/
theorem framebuffer_point_spec_witness :
    (({ width := 2, height := 2, buffer := [Color.black, Color.black, Color.black, Color.black],
        background_color := Color.black, current_color := ⟨1, 1, 1⟩ } : Framebuffer).point 3 0).buffer =
      [Color.black, Color.black, Color.black, Color.black] ∧
    (({ width := 2, height := 2, buffer := [Color.black, Color.black, Color.black, Color.black],
        background_color := Color.black, current_color := ⟨1, 1, 1⟩ } : Framebuffer).point 1 0).buffer[0 * 2 + 1]? =
      some (⟨1, 1, 1⟩ : Color) :=
  ⟨(framebuffer_point_spec _ 3 0 (by norm_num)).1 (Or.inl (by norm_num)),
   ((framebuffer_point_spec _ 1 0 (by norm_num)).2 (by norm_num) (by norm_num)).1⟩

/-! ### C3: ray misses everything -/

/-- The nearest-hit fold is the identity when no object intersects the ray. -/
theorem foldl_scanFold_miss (origin direction : Vec3) (objects : List Cube)
    (hm : ∀ c ∈ objects, (c.ray_intersect origin direction).is_intersecting = false) :
    ∀ acc, objects.foldl (scanFold origin direction) acc = acc := by
  induction objects with
  | nil => intro acc; rfl
  | cons c rest ih =>
    intro acc
    have hc := hm c (List.mem_cons_self c rest)
    have hstep : scanFold origin direction acc c = acc := by
      rw [scanFold]
      simp [hc]
    rw [List.foldl_cons, hstep]
    exact ih (fun o ho => hm o (List.mem_cons_of_mem c ho)) acc

/-- If no object intersects, the scan returns the empty record. -/
theorem scanClosest_miss (origin direction : Vec3) (objects : List Cube)
    (hm : ∀ c ∈ objects, (c.ray_intersect origin direction).is_intersecting = false) :
    scanClosest objects origin direction = Intersect.empty := by
  rw [scanClosest, foldl_scanFold_miss origin direction objects hm]

/-- C3: for depth at most 3 and a ray that intersects no scene object,
`cast_ray` returns exactly the skybox color sampled along the ray direction,
independent of the lights and of the depth value. -/
theorem cast_ray_miss_skybox (ray_origin ray_direction : Vec3) (objects : List Cube)
    (lights : List Light) (depth : ℕ) (skybox : Skybox) (hd : depth ≤ 3)
    (hm : ∀ c ∈ objects, (c.ray_intersect ray_origin ray_direction).is_intersecting = false) :
    cast_ray ray_origin ray_direction objects lights depth skybox =
      skybox.get_color_from_direction ray_direction := by
  rw [cast_ray, dif_neg (by omega)]
  dsimp only
  rw [scanClosest_miss ray_origin ray_direction objects hm]
  rw [if_pos (show Intersect.empty.is_intersecting = false from rfl)]

/-- C3 witness: the empty scene misses every ray; depth 2 and one light. -/
theorem cast_ray_miss_skybox_witness :
    cast_ray ⟨0, 0, 0⟩ ⟨0, 0, -1⟩ [] [lightW] 2 skyU =
      skyU.get_color_from_direction ⟨0, 0, -1⟩ :=
  cast_ray_miss_skybox _ _ [] _ 2 _ (by norm_num) (by intro c hc; cases hc)

/-! ### C2: Fresnel coefficient bounds -/

/-- For a positive refractive index the Fresnel coefficient lies in `[0,1]`. -/
theorem fresnel_mem_unit (incident normal : Vec3) {ior : ℝ} (hior : 0 < ior) :
    0 ≤ fresnel incident normal ior ∧ fresnel incident normal ior ≤ 1 := by
  rw [fresnel]
  dsimp only
  set c := clampR (incident.dot normal) (-1) 1 with hcdef
  have hc1 : (-1 : ℝ) ≤ c := by rw [hcdef, clampR]; exact le_min (le_max_right _ _) (by norm_num)
  have hc2 : c ≤ 1 := by rw [hcdef, clampR]; exact min_le_right _ _
  have hcc : 0 ≤ 1 - c * c := by nlinarith
  by_cases hts : 1 / ior * Real.sqrt (1 - c * c) ≥ 1
  · rw [if_pos hts]; norm_num
  · rw [if_neg hts]
    push_neg at hts
    have hsqnn : 0 ≤ Real.sqrt (1 - c * c) := Real.sqrt_nonneg _
    have hs0 : 0 ≤ 1 / ior * Real.sqrt (1 - c * c) := by positivity
    set s := 1 / ior * Real.sqrt (1 - c * c) with hsdef
    have hs1 : 0 < 1 - s * s := by nlinarith
    have ht : 0 < Real.sqrt (1 - s * s) := Real.sqrt_pos.mpr hs1
    set t := Real.sqrt (1 - s * s) with htdef
    have ha : 0 ≤ |c| := abs_nonneg c
    have hiornn : 0 ≤ ior * |c| := by positivity
    have hden1 : 0 < ior * |c| + 1 * t := by nlinarith
    have hit : 0 < ior * t := mul_pos hior ht
    have hden2 : 0 < 1 * |c| + ior * t := by nlinarith
    have hrs : (ior * |c| - 1 * t) / (ior * |c| + 1 * t) *
        ((ior * |c| - 1 * t) / (ior * |c| + 1 * t)) ≤ 1 := by
      rw [div_mul_div_comm, div_le_one (mul_pos hden1 hden1)]
      nlinarith [mul_nonneg hiornn ht.le]
    have hrp : (1 * |c| - ior * t) / (1 * |c| + ior * t) *
        ((1 * |c| - ior * t) / (1 * |c| + ior * t)) ≤ 1 := by
      rw [div_mul_div_comm, div_le_one (mul_pos hden2 hden2)]
      nlinarith [mul_nonneg ha hit.le]
    have h0rs : 0 ≤ (ior * |c| - 1 * t) / (ior * |c| + 1 * t) *
        ((ior * |c| - 1 * t) / (ior * |c| + 1 * t)) := mul_self_nonneg _
    have h0rp : 0 ≤ (1 * |c| - ior * t) / (1 * |c| + ior * t) *
        ((1 * |c| - ior * t) / (1 * |c| + ior * t)) := mul_self_nonneg _
    constructor
    · linarith
    · linarith

/-- Closed-form evaluation of `fresnel` in the refracting branch. -/
theorem fresnel_eval (incident normal : Vec3) (ior cv sv tv : ℝ)
    (hdot : clampR (incident.dot normal) (-1) 1 = cv)
    (hsv : 0 ≤ sv) (hsv2 : 1 - cv * cv = sv ^ 2)
    (hlt : ¬1 / ior * sv ≥ 1)
    (htv : 0 ≤ tv) (htv2 : 1 - 1 / ior * sv * (1 / ior * sv) = tv ^ 2) :
    fresnel incident normal ior =
      ((ior * |cv| - 1 * tv) / (ior * |cv| + 1 * tv) *
          ((ior * |cv| - 1 * tv) / (ior * |cv| + 1 * tv)) +
        (1 * |cv| - ior * tv) / (1 * |cv| + ior * tv) *
          ((1 * |cv| - ior * tv) / (1 * |cv| + ior * tv))) / 2 := by
  rw [fresnel]
  dsimp only
  rw [hdot, sqrt_eval hsv hsv2, if_neg hlt, sqrt_eval htv htv2]

/-- Closed-form evaluation of `fresnel` in the total-internal-reflection
branch. -/
theorem fresnel_eval_tir (incident normal : Vec3) (ior cv sv : ℝ)
    (hdot : clampR (incident.dot normal) (-1) 1 = cv)
    (hsv : 0 ≤ sv) (hsv2 : 1 - cv * cv = sv ^ 2)
    (hge : 1 / ior * sv ≥ 1) :
    fresnel incident normal ior = 1 := by
  rw [fresnel]
  dsimp only
  rw [hdot, sqrt_eval hsv hsv2, if_pos hge]

/-- C2 counterexample: as stated over all refractive indices and all
non-negative albedos the claim fails.  At `ior = -20/13` the Fresnel
coefficient exceeds 1, and at `ior = 1/2` (total internal reflection,
`kr = 1`) the non-negative albedo `[0,0,2,0]` gives an effective
reflective-plus-transmissive fraction of 2. -/
theorem fresnel_bounds_counterexample :
    1 < fresnel ⟨5 / 13, 12 / 13, 0⟩ ⟨1, 0, 0⟩ (-(20 / 13)) ∧
    (∀ i, 0 ≤ (![0, 0, 2, 0] : Fin 4 → ℝ) i) ∧
    1 < fresnel ⟨0, 0, -1⟩ ⟨1, 0, 0⟩ (1 / 2) * (![0, 0, 2, 0] : Fin 4 → ℝ) 2 +
        (1 - fresnel ⟨0, 0, -1⟩ ⟨1, 0, 0⟩ (1 / 2)) * (![0, 0, 2, 0] : Fin 4 → ℝ) 3 := by
  have hdot1 : clampR ((⟨5 / 13, 12 / 13, 0⟩ : Vec3).dot ⟨1, 0, 0⟩) (-1) 1 = 5 / 13 := by
    rw [Vec3.dot, clampR]; norm_num
  have h1 : fresnel ⟨5 / 13, 12 / 13, 0⟩ ⟨1, 0, 0⟩ (-(20 / 13)) =
      ((-(20 / 13) * |(5 : ℝ) / 13| - 1 * (4 / 5)) / (-(20 / 13) * |(5 : ℝ) / 13| + 1 * (4 / 5)) *
          ((-(20 / 13) * |(5 : ℝ) / 13| - 1 * (4 / 5)) / (-(20 / 13) * |(5 : ℝ) / 13| + 1 * (4 / 5))) +
        (1 * |(5 : ℝ) / 13| - -(20 / 13) * (4 / 5)) / (1 * |(5 : ℝ) / 13| + -(20 / 13) * (4 / 5)) *
          ((1 * |(5 : ℝ) / 13| - -(20 / 13) * (4 / 5)) / (1 * |(5 : ℝ) / 13| + -(20 / 13) * (4 / 5)))) / 2 :=
    fresnel_eval _ _ _ _ (12 / 13) (4 / 5) hdot1 (by norm_num) (by norm_num)
      (by norm_num) (by norm_num) (by norm_num)
  have habs : |(5 : ℝ) / 13| = 5 / 13 := abs_of_nonneg (by norm_num)
  have hdot2 : clampR ((⟨0, 0, -1⟩ : Vec3).dot ⟨1, 0, 0⟩) (-1) 1 = 0 := by
    rw [Vec3.dot, clampR]; norm_num
  have h2 : fresnel ⟨0, 0, -1⟩ ⟨1, 0, 0⟩ (1 / 2) = 1 :=
    fresnel_eval_tir _ _ _ _ 1 hdot2 (by norm_num) (by norm_num) (by norm_num)
  refine ⟨?_, ?_, ?_⟩
  · rw [h1, habs]; norm_num
  · intro i; fin_cases i <;> norm_num
  · rw [h2]; norm_num

/-- C2 (amended): for every refractive index strictly greater than 0 the
Fresnel coefficient `kr` lies in `[0,1]`, and for every material whose
reflective and transmissive albedo weights lie in `[0,1]` the effective
fraction `kr*albedo[2] + (1-kr)*albedo[3]` that scales down the
direct-lighting term in `cast_ray` never exceeds 1. -/
theorem fresnel_bounds_amended (incident normal : Vec3) (m : Material)
    (hior : 0 < m.refractive_index)
    (_h2 : 0 ≤ m.albedo 2) (h2' : m.albedo 2 ≤ 1)
    (_h3 : 0 ≤ m.albedo 3) (h3' : m.albedo 3 ≤ 1) :
    0 ≤ fresnel incident normal m.refractive_index ∧
    fresnel incident normal m.refractive_index ≤ 1 ∧
    fresnel incident normal m.refractive_index * m.albedo 2 +
      (1 - fresnel incident normal m.refractive_index) * m.albedo 3 ≤ 1 := by
  obtain ⟨h0, h1⟩ := fresnel_mem_unit incident normal hior
  refine ⟨h0, h1, ?_⟩
  nlinarith

/-- C2 witness: the amended bound at a concrete incident/normal pair and the
concrete water-like material of the scene. -/
theorem fresnel_bounds_amended_witness :
    0 ≤ fresnel ⟨0, 0, -1⟩ ⟨0, 1, 0⟩ matR.refractive_index ∧
    fresnel ⟨0, 0, -1⟩ ⟨0, 1, 0⟩ matR.refractive_index ≤ 1 ∧
    fresnel ⟨0, 0, -1⟩ ⟨0, 1, 0⟩ matR.refractive_index * matR.albedo 2 +
      (1 - fresnel ⟨0, 0, -1⟩ ⟨0, 1, 0⟩ matR.refractive_index) * matR.albedo 3 ≤ 1 :=
  fresnel_bounds_amended ⟨0, 0, -1⟩ ⟨0, 1, 0⟩ matR (by norm_num [matR])
    (by norm_num [matR]) (by norm_num [matR]) (by norm_num [matR]) (by norm_num [matR])

/-! ### C9: skybox face selection -/

/-- The source's face-selection chain agrees with the claim's chooser
(largest-magnitude axis, ties X over Y over Z, sign by the component). -/
theorem chosenFace_eq_specFace (n : Vec3) : chosenFace n = specFace n := by
  rcases le_or_lt |n.y| |n.x| with hxy | hxy <;> rcases le_or_lt |n.z| |n.x| with hxz | hxz
  · by_cases hx : 0 < n.x <;> simp [chosenFace, specFace, hxy, hxz, hx]
  · have hzy : |n.y| < |n.z| := lt_of_le_of_lt hxy hxz
    by_cases hz : 0 < n.z <;>
      simp [chosenFace, specFace, hxy, not_le.mpr hxz, not_le.mpr hzy, hxz.le, hzy.le, hz]
  · have hzy : |n.z| < |n.y| := lt_of_le_of_lt hxz hxy
    by_cases hy : 0 < n.y <;>
      simp [chosenFace, specFace, not_le.mpr hxy, hxy.le, hxz, hzy.le, hy]
  · rcases le_or_lt |n.z| |n.y| with hzy | hzy
    · by_cases hy : 0 < n.y <;>
        simp [chosenFace, specFace, not_le.mpr hxy, hxy.le, hzy, hy]
    · by_cases hz : 0 < n.z <;>
        simp [chosenFace, specFace, not_le.mpr hxy, not_le.mpr hxz, not_le.mpr hzy,
          hxz.le, hzy.le, hz]

/-- The chosen face's axis carries the largest-magnitude component. -/
theorem specFace_max_component (n : Vec3) :
    |Face.component (specFace n) n| = max |n.x| (max |n.y| |n.z|) := by
  rw [specFace]
  split_ifs with hA hx hB hy hz <;> rw [Face.component]
  · exact (max_eq_left (max_le hA.1 hA.2)).symm
  · exact (max_eq_left (max_le hA.1 hA.2)).symm
  · have hxy : |n.x| ≤ |n.y| := by
      rcases not_and_or.mp hA with h | h
      · exact (not_le.mp h).le
      · exact le_trans (not_le.mp h).le hB
    rw [max_eq_left hB, max_eq_right hxy]
  · have hxy : |n.x| ≤ |n.y| := by
      rcases not_and_or.mp hA with h | h
      · exact (not_le.mp h).le
      · exact le_trans (not_le.mp h).le hB
    rw [max_eq_left hB, max_eq_right hxy]
  · have hyz : |n.y| ≤ |n.z| := (not_le.mp hB).le
    have hxz : |n.x| ≤ |n.z| := by
      rcases not_and_or.mp hA with h | h
      · exact le_trans (not_le.mp h).le hyz
      · exact (not_le.mp h).le
    rw [max_eq_right hyz, max_eq_right hxz]
  · have hyz : |n.y| ≤ |n.z| := (not_le.mp hB).le
    have hxz : |n.x| ≤ |n.z| := by
      rcases not_and_or.mp hA with h | h
      · exact le_trans (not_le.mp h).le hyz
      · exact (not_le.mp h).le
    rw [max_eq_right hyz, max_eq_right hxz]

/-- The chosen face's sign matches its component's sign. -/
theorem specFace_sign (n : Vec3) :
    (specFace n).isPositive = true ↔ 0 < Face.component (specFace n) n := by
  rw [specFace]
  split_ifs with hA hx hB hy hz
  · simp [Face.isPositive, Face.component, hx]
  · simp [Face.isPositive, Face.component, hx]
  · simp [Face.isPositive, Face.component, hy]
  · simp [Face.isPositive, Face.component, hy]
  · simp [Face.isPositive, Face.component, hz]
  · simp [Face.isPositive, Face.component, hz]

/-- C9: for every nonzero direction, skybox sampling selects exactly the face
whose axis has the largest-magnitude component of the normalized direction
(ties X over Y over Z, sign by the component's sign) and returns a color read
from that face's texture. -/
theorem skybox_face_selection (sb : Skybox) (d : Vec3) (_h : d ≠ ⟨0, 0, 0⟩) :
    Skybox.get_color_from_direction sb d = faceSample sb (specFace d.normalize) d.normalize ∧
    |Face.component (specFace d.normalize) d.normalize| =
      max |d.normalize.x| (max |d.normalize.y| |d.normalize.z|) ∧
    ((specFace d.normalize).isPositive = true ↔
      0 < Face.component (specFace d.normalize) d.normalize) := by
  refine ⟨?_, specFace_max_component _, specFace_sign _⟩
  rw [Skybox.get_color_from_direction, chosenFace_eq_specFace]

/-- C9 witness at the concrete nonzero direction `(3,4,0)`. -/
theorem skybox_face_selection_witness :
    Skybox.get_color_from_direction skyU ⟨3, 4, 0⟩ =
      faceSample skyU (specFace (Vec3.normalize ⟨3, 4, 0⟩)) (Vec3.normalize ⟨3, 4, 0⟩) ∧
    |Face.component (specFace (Vec3.normalize ⟨3, 4, 0⟩)) (Vec3.normalize ⟨3, 4, 0⟩)| =
      max |(Vec3.normalize ⟨3, 4, 0⟩).x|
        (max |(Vec3.normalize ⟨3, 4, 0⟩).y| |(Vec3.normalize ⟨3, 4, 0⟩).z|) ∧
    ((specFace (Vec3.normalize ⟨3, 4, 0⟩)).isPositive = true ↔
      0 < Face.component (specFace (Vec3.normalize ⟨3, 4, 0⟩)) (Vec3.normalize ⟨3, 4, 0⟩)) :=
  skybox_face_selection skyU ⟨3, 4, 0⟩ (by
    intro h
    have := congrArg Vec3.x h
    norm_num at this)

/-! ### C6: camera orbit invariants -/

theorem Vec3.sub_eq_zero_iff {a b : Vec3} : a - b = ⟨0, 0, 0⟩ ↔ a = b := by
  constructor
  · intro h
    ext
    · have := congrArg Vec3.x h; simpa [sub_eq_zero] using this
    · have := congrArg Vec3.y h; simpa [sub_eq_zero] using this
    · have := congrArg Vec3.z h; simpa [sub_eq_zero] using this
  · intro h
    rw [h]
    ext <;> simp

theorem clampR_mem {lo hi : ℝ} (v : ℝ) (h : lo ≤ hi) :
    lo ≤ clampR v lo hi ∧ clampR v lo hi ≤ hi := by
  rw [clampR]
  exact ⟨le_min (le_max_right _ _) h, min_le_right _ _⟩

/-- `rotate_around_target` never moves the target. -/
theorem rotate_target (cam : Camera) (dy dp : ℝ) :
    (cam.rotate_around_target dy dp).target = cam.target := rfl

/-- A point at spherical offset `(R, ay, ap)` from `t` lies at distance `R`
from `t`, for any angles. -/
theorem magnitude_spherical (t : Vec3) (R ay ap : ℝ) (hR : 0 ≤ R) :
    ((t + Vec3.mk (R * Real.cos ay * Real.cos ap) (-(R * Real.sin ap))
      (R * Real.sin ay * Real.cos ap)) - t).magnitude = R := by
  apply magnitude_eval hR
  have h1 := Real.sin_sq_add_cos_sq ay
  have h2 := Real.sin_sq_add_cos_sq ap
  simp only [Vec3.sub_x, Vec3.sub_y, Vec3.sub_z, Vec3.add_x, Vec3.add_y, Vec3.add_z]
  linear_combination (R ^ 2 * Real.cos ap ^ 2) * h1 + R ^ 2 * h2

/-- `rotate_around_target` preserves the distance from position to target
exactly. -/
theorem rotate_magnitude (cam : Camera) (dy dp : ℝ) :
    ((cam.rotate_around_target dy dp).position - cam.target).magnitude =
      (cam.position - cam.target).magnitude := by
  rw [Camera.rotate_around_target]
  exact magnitude_spherical _ _ _ _ (magnitude_nonneg _)

theorem magnitude_zero_vec : (Vec3.mk 0 0 0).magnitude = 0 :=
  magnitude_eval le_rfl (by norm_num)

/-- `rotate_around_target` keeps the position away from the target. -/
theorem rotate_pos_ne (cam : Camera) (h : cam.position ≠ cam.target) (dy dp : ℝ) :
    (cam.rotate_around_target dy dp).position ≠ cam.target := by
  intro heq
  have hmag := rotate_magnitude cam dy dp
  rw [Vec3.sub_eq_zero_iff.mpr heq, magnitude_zero_vec] at hmag
  have hne : cam.position - cam.target ≠ ⟨0, 0, 0⟩ := fun h0 => h (Vec3.sub_eq_zero_iff.mp h0)
  exact absurd hmag.symm (ne_of_gt (magnitude_pos hne))

/-- The recomputed pitch of a camera at spherical offset `(R, ay, p)` from its
target is exactly `p`, for `R > 0` and `p` strictly inside `(-π/2, π/2)`. -/
theorem camPitch_spherical (t u : Vec3) (R ay p : ℝ) (hR : 0 < R)
    (hplo : -(Real.pi / 2) < p) (hphi : p < Real.pi / 2) :
    camPitch ⟨t + Vec3.mk (R * Real.cos ay * Real.cos p) (-(R * Real.sin p))
      (R * Real.sin ay * Real.cos p), t, u⟩ = p := by
  have hcos : 0 < Real.cos p := Real.cos_pos_of_mem_Ioo ⟨hplo, hphi⟩
  rw [camPitch]
  dsimp only
  simp only [Vec3.sub_x, Vec3.sub_y, Vec3.sub_z, Vec3.add_x, Vec3.add_y, Vec3.add_z]
  have hxz : Real.sqrt ((t.x + R * Real.cos ay * Real.cos p - t.x) *
      (t.x + R * Real.cos ay * Real.cos p - t.x) +
      (t.z + R * Real.sin ay * Real.cos p - t.z) *
        (t.z + R * Real.sin ay * Real.cos p - t.z)) = R * Real.cos p := by
    apply sqrt_eval (by positivity)
    have h1 := Real.sin_sq_add_cos_sq ay
    linear_combination (R ^ 2 * Real.cos p ^ 2) * h1
  rw [hxz, atan2, if_pos (by positivity)]
  have hy : -(t.y + -(R * Real.sin p) - t.y) = R * Real.sin p := by ring
  rw [hy, mul_div_mul_left _ _ (ne_of_gt hR), ← Real.tan_eq_sin_div_cos,
    Real.arctan_tan hplo hphi]

/-- After one orbit step the recomputed pitch sits in the clamped range
`[-π/2 + 0.1, π/2 - 0.1]`. -/
theorem rotate_pitch (cam : Camera) (h : cam.position ≠ cam.target) (dy dp : ℝ) :
    -(Real.pi / 2) + 0.1 ≤ camPitch (cam.rotate_around_target dy dp) ∧
    camPitch (cam.rotate_around_target dy dp) ≤ Real.pi / 2 - 0.1 := by
  have hpi := Real.pi_gt_three
  have h01 : (0.1 : ℝ) = 1 / 10 := by norm_num
  have hlohi : -(Real.pi / 2) + 0.1 ≤ Real.pi / 2 - 0.1 := by linarith
  have hne : cam.position - cam.target ≠ ⟨0, 0, 0⟩ := fun h0 => h (Vec3.sub_eq_zero_iff.mp h0)
  have hR : 0 < (cam.position - cam.target).magnitude := magnitude_pos hne
  rw [Camera.rotate_around_target]
  obtain ⟨hp1, hp2⟩ := clampR_mem
    (atan2 (-(cam.position - cam.target).y)
        (Real.sqrt ((cam.position - cam.target).x * (cam.position - cam.target).x +
          (cam.position - cam.target).z * (cam.position - cam.target).z)) + dp) hlohi
  have hplo : -(Real.pi / 2) <
      clampR (atan2 (-(cam.position - cam.target).y)
        (Real.sqrt ((cam.position - cam.target).x * (cam.position - cam.target).x +
          (cam.position - cam.target).z * (cam.position - cam.target).z)) + dp)
        (-(Real.pi / 2) + 0.1) (Real.pi / 2 - 0.1) := by
    linarith
  have hphi : clampR (atan2 (-(cam.position - cam.target).y)
        (Real.sqrt ((cam.position - cam.target).x * (cam.position - cam.target).x +
          (cam.position - cam.target).z * (cam.position - cam.target).z)) + dp)
        (-(Real.pi / 2) + 0.1) (Real.pi / 2 - 0.1) < Real.pi / 2 := by
    linarith
  rw [camPitch_spherical _ _ _ _ _ hR hplo hphi]
  exact ⟨hp1, hp2⟩

/-- Invariants of a whole orbit sequence, by induction over the deltas. -/
theorem applyDeltas_invariants (deltas : List (ℝ × ℝ)) :
    ∀ cam : Camera, cam.position ≠ cam.target →
      (applyDeltas cam deltas).target = cam.target ∧
      ((applyDeltas cam deltas).position - cam.target).magnitude =
        (cam.position - cam.target).magnitude ∧
      (applyDeltas cam deltas).position ≠ cam.target ∧
      (deltas ≠ [] →
        -(Real.pi / 2) + 0.1 ≤ camPitch (applyDeltas cam deltas) ∧
        camPitch (applyDeltas cam deltas) ≤ Real.pi / 2 - 0.1) := by
  induction deltas with
  | nil =>
    intro cam h
    exact ⟨rfl, rfl, h, fun hne => absurd rfl hne⟩
  | cons d rest ih =>
    intro cam h
    have hstep : applyDeltas cam (d :: rest) =
        applyDeltas (cam.rotate_around_target d.1 d.2) rest := rfl
    have hne' := rotate_pos_ne cam h d.1 d.2
    have hne'' : (cam.rotate_around_target d.1 d.2).position ≠
        (cam.rotate_around_target d.1 d.2).target := by
      rw [rotate_target]; exact hne'
    obtain ⟨ht, hm, hp, hpitch⟩ := ih (cam.rotate_around_target d.1 d.2) hne''
    rw [rotate_target] at ht hm hp
    refine ⟨?_, ?_, ?_, ?_⟩
    · rw [hstep, ht]
    · rw [hstep, hm, rotate_magnitude]
    · rw [hstep]; exact hp
    · intro _
      rw [hstep]
      cases rest with
      | nil => exact rotate_pitch cam h d.1 d.2
      | cons a as => exact hpitch (List.cons_ne_nil a as)

/-- C6: for every camera whose position differs from its target, any sequence
of orbit operations leaves the target unchanged, preserves the distance from
position to target exactly, and (once at least one orbit step is applied)
keeps the recomputed pitch within the clamped band `[-π/2 + 0.1, π/2 - 0.1]`,
strictly inside `(-π/2, π/2)`. -/
theorem camera_orbit_invariants (cam : Camera) (h : cam.position ≠ cam.target)
    (deltas : List (ℝ × ℝ)) :
    (applyDeltas cam deltas).target = cam.target ∧
    ((applyDeltas cam deltas).position - (applyDeltas cam deltas).target).magnitude =
      (cam.position - cam.target).magnitude ∧
    (deltas ≠ [] →
      -(Real.pi / 2) + 0.1 ≤ camPitch (applyDeltas cam deltas) ∧
      camPitch (applyDeltas cam deltas) ≤ Real.pi / 2 - 0.1 ∧
      -(Real.pi / 2) < camPitch (applyDeltas cam deltas) ∧
      camPitch (applyDeltas cam deltas) < Real.pi / 2) := by
  obtain ⟨ht, hm, _hp, hpitch⟩ := applyDeltas_invariants deltas cam h
  have hpi := Real.pi_gt_three
  have h01 : (0.1 : ℝ) = 1 / 10 := by norm_num
  refine ⟨ht, by rw [ht]; exact hm, fun hne => ?_⟩
  obtain ⟨h1, h2⟩ := hpitch hne
  exact ⟨h1, h2, by linarith, by linarith⟩

/-- C6 witness: a concrete camera orbited by one yaw/pitch step. -/
theorem camera_orbit_invariants_witness :
    (applyDeltas ⟨⟨0, 0, 5⟩, ⟨0, 0, 0⟩, ⟨0, 1, 0⟩⟩ [(1, 1)]).target = (⟨0, 0, 0⟩ : Vec3) ∧
    ((applyDeltas ⟨⟨0, 0, 5⟩, ⟨0, 0, 0⟩, ⟨0, 1, 0⟩⟩ [(1, 1)]).position -
        (applyDeltas ⟨⟨0, 0, 5⟩, ⟨0, 0, 0⟩, ⟨0, 1, 0⟩⟩ [(1, 1)]).target).magnitude =
      ((⟨0, 0, 5⟩ : Vec3) - (⟨0, 0, 0⟩ : Vec3)).magnitude ∧
    -(Real.pi / 2) + 0.1 ≤ camPitch (applyDeltas ⟨⟨0, 0, 5⟩, ⟨0, 0, 0⟩, ⟨0, 1, 0⟩⟩ [(1, 1)]) ∧
    camPitch (applyDeltas ⟨⟨0, 0, 5⟩, ⟨0, 0, 0⟩, ⟨0, 1, 0⟩⟩ [(1, 1)]) ≤ Real.pi / 2 - 0.1 := by
  have h := camera_orbit_invariants ⟨⟨0, 0, 5⟩, ⟨0, 0, 0⟩, ⟨0, 1, 0⟩⟩ (by
    intro heq
    have hz := congrArg Vec3.z heq
    norm_num at hz) [(1, 1)]
  obtain ⟨h1, h2, h3⟩ := h
  obtain ⟨h4, h5, _, _⟩ := h3 (List.cons_ne_nil _ _)
  exact ⟨h1, h2, h4, h5⟩

/-! ### C4: shadow intensity -/

theorem EReal.toReal_nonneg' {x : EReal} (h : 0 ≤ x) : 0 ≤ x.toReal := by
  induction x using EReal.rec with
  | h_bot => simp at h
  | h_real a => simpa using EReal.coe_nonneg.mp h
  | h_top => simp

/-- The modelled slab test always reports a non-negative hit distance. -/
theorem ray_intersect_distance_nonneg (c : Cube) (o d : Vec3) :
    0 ≤ (c.ray_intersect o d).distance := by
  rw [Cube.ray_intersect]
  dsimp only
  rw [apply_ite Intersect.distance]
  dsimp only
  split_ifs with h h2
  · exact EReal.toReal_nonneg' h2.le
  · exact EReal.toReal_nonneg' h.2.le
  · norm_num [Intersect.empty]

/-- The occlusion scan returns 0 when no object occludes. -/
theorem shadowLoop_zero (objects : List Cube) (so ld : Vec3) (L : ℝ)
    (h : ∀ c ∈ objects, ¬((c.ray_intersect so ld).is_intersecting = true ∧
      (c.ray_intersect so ld).distance < L)) :
    shadowLoop objects so ld L = 0 := by
  induction objects with
  | nil => rfl
  | cons c rest ih =>
    simp only [shadowLoop]
    rw [if_neg (h c (List.mem_cons_self c rest))]
    exact ih fun o ho => h o (List.mem_cons_of_mem c ho)

/-- The occlusion scan stops at the first occluder in list order and returns
the soft-falloff intensity computed from its distance. -/
theorem shadowLoop_first (so ld : Vec3) (L : ℝ) (pre : List Cube) (occ : Cube)
    (post : List Cube)
    (hpre : ∀ c ∈ pre, ¬((c.ray_intersect so ld).is_intersecting = true ∧
      (c.ray_intersect so ld).distance < L))
    (hocc : (occ.ray_intersect so ld).is_intersecting = true ∧
      (occ.ray_intersect so ld).distance < L) :
    shadowLoop (pre ++ occ :: post) so ld L =
      1 - min (((occ.ray_intersect so ld).distance / L) ^ (2 : ℝ)) 1 := by
  induction pre with
  | nil =>
    simp only [List.nil_append, shadowLoop]
    rw [if_pos hocc]
  | cons p rest ih =>
    simp only [List.cons_append, shadowLoop]
    rw [if_neg (hpre p (List.mem_cons_self p rest))]
    exact ih fun c hc => hpre c (List.mem_cons_of_mem p hc)

/-- C4: `cast_shadow` returns 0 when no scene object is intersected by the
bias-offset shadow ray strictly closer than the light, and when occluders
exist it returns `1 - min(1, (occluderDistance/lightDistance)²)` for the
first occluder in scan order, a value that lies in `(0, 1]`. -/
theorem cast_shadow_spec (intersect : Intersect) (lights : List Light)
    (objects : List Cube) (i : ℕ) (hi : i < lights.length) :
    ((∀ c ∈ objects, ¬occludes intersect lights[i] c) →
      cast_shadow intersect lights objects i = 0) ∧
    (∀ pre occ post, objects = pre ++ occ :: post →
      (∀ c ∈ pre, ¬occludes intersect lights[i] c) →
      occludes intersect lights[i] occ →
      cast_shadow intersect lights objects i =
        1 - min ((occluderDistance intersect lights[i] occ /
          (lights[i].position - intersect.point).magnitude) ^ (2 : ℝ)) 1 ∧
      0 < cast_shadow intersect lights objects i ∧
      cast_shadow intersect lights objects i ≤ 1) := by
  have hgetD : lights.getD i Light.dummy = lights[i] := List.getD_eq_getElem lights Light.dummy hi
  constructor
  · intro hnone
    rw [cast_shadow]
    rw [hgetD]
    exact shadowLoop_zero objects _ _ _ fun c hc => hnone c hc
  · intro pre occ post hobj hpre hocc
    have heq : cast_shadow intersect lights objects i =
        1 - min ((occluderDistance intersect lights[i] occ /
          (lights[i].position - intersect.point).magnitude) ^ (2 : ℝ)) 1 := by
      rw [cast_shadow]
      rw [hgetD, hobj]
      exact shadowLoop_first _ _ _ pre occ post hpre hocc
    have hL : 0 < (lights[i].position - intersect.point).magnitude :=
      lt_of_le_of_lt (ray_intersect_distance_nonneg occ _ _) hocc.2
    have hd0 : 0 ≤ occluderDistance intersect lights[i] occ :=
      ray_intersect_distance_nonneg occ _ _
    have hr0 : 0 ≤ occluderDistance intersect lights[i] occ /
        (lights[i].position - intersect.point).magnitude := div_nonneg hd0 hL.le
    have hr1 : occluderDistance intersect lights[i] occ /
        (lights[i].position - intersect.point).magnitude < 1 :=
      (div_lt_one hL).mpr hocc.2
    have hpow : (occluderDistance intersect lights[i] occ /
        (lights[i].position - intersect.point).magnitude) ^ (2 : ℝ) =
        (occluderDistance intersect lights[i] occ /
          (lights[i].position - intersect.point).magnitude) ^ (2 : ℕ) := by
      rw [show ((2 : ℝ)) = ((2 : ℕ) : ℝ) by norm_num, Real.rpow_natCast]
    have hsq0 : 0 ≤ (occluderDistance intersect lights[i] occ /
        (lights[i].position - intersect.point).magnitude) ^ (2 : ℕ) := by positivity
    have hsq1 : (occluderDistance intersect lights[i] occ /
        (lights[i].position - intersect.point).magnitude) ^ (2 : ℕ) < 1 :=
      pow_lt_one₀ hr0 hr1 (by norm_num)
    refine ⟨heq, ?_, ?_⟩
    · rw [heq, hpow, min_eq_left hsq1.le]
      linarith
    · rw [heq, hpow, min_eq_left hsq1.le]
      linarith

/-! ### Slab evaluation lemmas for axis-aligned vertical rays -/

theorem slabInterval_par_inside {o lo hi : ℝ} (h : lo ≤ o ∧ o ≤ hi) :
    slabInterval o 0 lo hi = ((⊥ : EReal), (⊤ : EReal)) := by
  rw [slabInterval, if_pos rfl, if_pos h]

theorem slabInterval_nonpar {o d lo hi : ℝ} (hd : d ≠ 0) :
    slabInterval o d lo hi =
      (((min ((lo - o) / d) ((hi - o) / d) : ℝ) : EReal),
       ((max ((lo - o) / d) ((hi - o) / d) : ℝ) : EReal)) := by
  rw [slabInterval, if_neg hd]

/-- A vertical ray going up from below the box, inside its x/z extent, hits
the bottom face. -/
theorem ray_intersect_up_hit (c : Cube) (o : Vec3) (dy : ℝ) (hdy : 0 < dy)
    (hx : c.min_corner.x ≤ o.x ∧ o.x ≤ c.max_corner.x)
    (hz : c.min_corner.z ≤ o.z ∧ o.z ≤ c.max_corner.z)
    (hy1 : o.y < c.min_corner.y) (hy2 : c.min_corner.y < c.max_corner.y) :
    c.ray_intersect o ⟨0, dy, 0⟩ =
      { is_intersecting := true
        distance := (c.min_corner.y - o.y) / dy
        point := o + ((c.min_corner.y - o.y) / dy) * (⟨0, dy, 0⟩ : Vec3)
        normal := ⟨0, -1, 0⟩
        material := resolveMaterial c
          (o + ((c.min_corner.y - o.y) / dy) * (⟨0, dy, 0⟩ : Vec3)) ⟨0, -1, 0⟩ } := by
  have ht12 : (c.min_corner.y - o.y) / dy ≤ (c.max_corner.y - o.y) / dy :=
    (div_le_div_iff_of_pos_right hdy).mpr (by linarith)
  have ht1pos : 0 < (c.min_corner.y - o.y) / dy := div_pos (by linarith) hdy
  rw [Cube.ray_intersect]
  dsimp only
  rw [slabInterval_par_inside hx, slabInterval_par_inside hz, slabInterval_nonpar (ne_of_gt hdy)]
  dsimp only
  rw [min_eq_left ht12, max_eq_right ht12]
  rw [max_eq_right (bot_le : (⊥ : EReal) ≤ _), max_eq_left (bot_le : (⊥ : EReal) ≤ _)]
  rw [min_eq_right (le_top : _ ≤ (⊤ : EReal)), min_eq_left (le_top : _ ≤ (⊤ : EReal))]
  rw [if_pos ⟨EReal.coe_le_coe_iff.mpr ht12, by exact_mod_cast div_pos (by linarith) hdy⟩]
  rw [if_pos (by exact_mod_cast ht1pos)]
  rw [if_neg (EReal.bot_ne_coe _), if_pos rfl, if_pos hdy]
  rw [EReal.toReal_coe]

/-- A vertical ray going down from above the box, inside its x/z extent, hits
the top face. -/
theorem ray_intersect_down_hit (c : Cube) (o : Vec3) (dy : ℝ) (hdy : dy < 0)
    (hx : c.min_corner.x ≤ o.x ∧ o.x ≤ c.max_corner.x)
    (hz : c.min_corner.z ≤ o.z ∧ o.z ≤ c.max_corner.z)
    (hy1 : c.max_corner.y < o.y) (hy2 : c.min_corner.y < c.max_corner.y) :
    c.ray_intersect o ⟨0, dy, 0⟩ =
      { is_intersecting := true
        distance := (c.max_corner.y - o.y) / dy
        point := o + ((c.max_corner.y - o.y) / dy) * (⟨0, dy, 0⟩ : Vec3)
        normal := ⟨0, 1, 0⟩
        material := resolveMaterial c
          (o + ((c.max_corner.y - o.y) / dy) * (⟨0, dy, 0⟩ : Vec3)) ⟨0, 1, 0⟩ } := by
  have ht21 : (c.max_corner.y - o.y) / dy ≤ (c.min_corner.y - o.y) / dy :=
    (div_le_div_right_of_neg hdy).mpr (by linarith)
  have ht2pos : 0 < (c.max_corner.y - o.y) / dy :=
    div_pos_of_neg_of_neg (by linarith) hdy
  have ht1pos : 0 < (c.min_corner.y - o.y) / dy :=
    div_pos_of_neg_of_neg (by linarith) hdy
  rw [Cube.ray_intersect]
  dsimp only
  rw [slabInterval_par_inside hx, slabInterval_par_inside hz, slabInterval_nonpar (ne_of_lt hdy)]
  dsimp only
  rw [min_eq_right ht21, max_eq_left ht21]
  rw [max_eq_right (bot_le : (⊥ : EReal) ≤ _), max_eq_left (bot_le : (⊥ : EReal) ≤ _)]
  rw [min_eq_right (le_top : _ ≤ (⊤ : EReal)), min_eq_left (le_top : _ ≤ (⊤ : EReal))]
  rw [if_pos ⟨EReal.coe_le_coe_iff.mpr ht21, by exact_mod_cast ht1pos⟩]
  rw [if_pos (by exact_mod_cast ht2pos)]
  rw [if_neg (EReal.bot_ne_coe _), if_pos rfl, if_neg (not_lt.mpr hdy.le)]
  rw [EReal.toReal_coe]

/-- A vertical ray going up from at or above the top of the box misses. -/
theorem ray_intersect_up_miss (c : Cube) (o : Vec3) (dy : ℝ) (hdy : 0 < dy)
    (hy1 : c.min_corner.y ≤ c.max_corner.y) (hy2 : c.max_corner.y ≤ o.y) :
    c.ray_intersect o ⟨0, dy, 0⟩ = Intersect.empty := by
  rw [Cube.ray_intersect]
  dsimp only
  rw [if_neg]
  rintro ⟨-, hpos⟩
  have ht1 : (c.min_corner.y - o.y) / dy ≤ 0 :=
    div_nonpos_of_nonpos_of_nonneg (by linarith) hdy.le
  have ht2 : (c.max_corner.y - o.y) / dy ≤ 0 :=
    div_nonpos_of_nonpos_of_nonneg (by linarith) hdy.le
  have hmax : max ((c.min_corner.y - o.y) / dy) ((c.max_corner.y - o.y) / dy) ≤ 0 :=
    max_le ht1 ht2
  have hfar : (min (min (slabInterval o.x 0 c.min_corner.x c.max_corner.x).2
      (slabInterval o.y dy c.min_corner.y c.max_corner.y).2)
      (slabInterval o.z 0 c.min_corner.z c.max_corner.z).2) ≤
      (slabInterval o.y dy c.min_corner.y c.max_corner.y).2 :=
    le_trans (min_le_left _ _) (min_le_right _ _)
  rw [slabInterval_nonpar (ne_of_gt hdy)] at hfar hpos
  dsimp only at hfar hpos
  have hlt : (0 : EReal) <
      ((max ((c.min_corner.y - o.y) / dy) ((c.max_corner.y - o.y) / dy) : ℝ) : EReal) :=
    lt_of_lt_of_le hpos hfar
  rw [show ((0 : EReal)) = ((0 : ℝ) : EReal) by norm_num] at hlt
  exact absurd (EReal.coe_lt_coe_iff.mp hlt) (not_lt.mpr hmax)

/-- The shadow-witness scene evaluates as expected: direction, distance and
bias-offset origin of the shadow ray from `itW` toward `lightS`. -/
theorem shadow_witness_ray :
    (lightS.position - itW.point).normalize = ⟨0, 1, 0⟩ ∧
    (lightS.position - itW.point).magnitude = 10 ∧
    shadowRayOrigin itW lightS = ⟨0, 1 / 10000, 0⟩ := by
  have hsub : lightS.position - itW.point = ⟨0, 10, 0⟩ := by
    ext <;> simp [lightS, itW]
  have hnorm : (lightS.position - itW.point).normalize = ⟨0, 1, 0⟩ := by
    rw [hsub, normalize_eval (c := 10) (by norm_num) (by norm_num)]
    ext <;> norm_num
  have hmag : (lightS.position - itW.point).magnitude = 10 := by
    rw [hsub]
    exact magnitude_eval (by norm_num) (by norm_num)
  refine ⟨hnorm, hmag, ?_⟩
  rw [shadowRayOrigin, hnorm, offset_origin]
  rw [if_neg (by norm_num [Vec3.dot, itW])]
  ext <;> norm_num [itW, ORIGIN_BIAS]

/-- The occluder cube is hit by the witness shadow ray strictly closer than
the light. -/
theorem shadow_witness_occludes : occludes itW lightS cubeOcc := by
  obtain ⟨hnorm, hmag, horig⟩ := shadow_witness_ray
  have hray := ray_intersect_up_hit cubeOcc ⟨0, 1 / 10000, 0⟩ 1 (by norm_num)
    (by constructor <;> norm_num [cubeOcc])
    (by constructor <;> norm_num [cubeOcc])
    (by norm_num [cubeOcc]) (by norm_num [cubeOcc])
  rw [occludes, horig, hnorm, hmag, hray]
  constructor
  · rfl
  · norm_num [cubeOcc]

/-- C4 witness: with no objects the shadow intensity is 0; with the occluder
the first-occluder formula applies and the result lies in `(0,1]`. -/
theorem cast_shadow_spec_witness :
    cast_shadow itW [lightS] [] 0 = 0 ∧
    (cast_shadow itW [lightS] [cubeOcc] 0 =
      1 - min ((occluderDistance itW lightS cubeOcc /
        (lightS.position - itW.point).magnitude) ^ (2 : ℝ)) 1 ∧
    0 < cast_shadow itW [lightS] [cubeOcc] 0 ∧ cast_shadow itW [lightS] [cubeOcc] 0 ≤ 1) :=
  ⟨(cast_shadow_spec itW [lightS] [] 0 (by norm_num)).1
      (fun c hc => absurd hc (List.not_mem_nil c)),
   (cast_shadow_spec itW [lightS] [cubeOcc] 0 (by norm_num)).2 [] cubeOcc [] rfl
      (fun c hc => absurd hc (List.not_mem_nil c)) shadow_witness_occludes⟩

/-! ### C5: fully opaque material -/

/-- C5 (amended): when the nearest hit has `albedo = [1,0,0,0]`, no reflection
or refraction recursion occurs and `cast_ray` returns exactly the clamp of
(emissive + accumulated diffuse); the accumulated specular sum is weighted by
`albedo[1] = 0` and so contributes nothing. -/
theorem cast_ray_opaque_amended (ray_origin ray_direction : Vec3) (objects : List Cube)
    (lights : List Light) (depth : ℕ) (skybox : Skybox) (hd : depth ≤ 3)
    (hhit : (scanClosest objects ray_origin ray_direction).is_intersecting = true)
    (halb : (scanClosest objects ray_origin ray_direction).material.albedo = ![1, 0, 0, 0]) :
    cast_ray ray_origin ray_direction objects lights depth skybox =
      ((scanClosest objects ray_origin ray_direction).material.emission +
        (lightingSums (scanClosest objects ray_origin ray_direction) lights objects
          ray_origin).1).clamp := by
  rw [cast_ray, dif_neg (by omega)]
  dsimp only
  rw [if_neg (by rw [hhit]; exact fun h => absurd h (by norm_num))]
  rw [halb]
  have h0 : (![1, 0, 0, 0] : Fin 4 → ℝ) 0 = 1 := by simp
  have h1 : (![1, 0, 0, 0] : Fin 4 → ℝ) 1 = 0 := by simp
  have h2 : (![1, 0, 0, 0] : Fin 4 → ℝ) 2 = 0 := by simp
  have h3 : (![1, 0, 0, 0] : Fin 4 → ℝ) 3 = 0 := by simp
  rw [h0, h1, h2, h3, mul_zero, mul_zero]
  rw [if_neg (lt_irrefl 0), if_neg (lt_irrefl 0)]
  congr 1
  ext <;> simp [Color.black]

/-- The witness scene's primary ray hits the top face of `cubeR` at distance 2. -/
theorem scan_cubeR_eval :
    scanClosest [cubeR] ⟨1 / 2, 3, 1 / 2⟩ ⟨0, -1, 0⟩ = itC := by
  have hray := ray_intersect_down_hit cubeR ⟨1 / 2, 3, 1 / 2⟩ (-1) (by norm_num)
    (by constructor <;> norm_num [cubeR]) (by constructor <;> norm_num [cubeR])
    (by norm_num [cubeR]) (by norm_num [cubeR])
  rw [scanClosest]
  simp only [List.foldl_cons, List.foldl_nil]
  rw [scanFold]
  dsimp only
  rw [hray]
  rw [if_pos rfl]
  dsimp only
  rw [itC]
  have hdist : (cubeR.max_corner.y - 3) / (-1 : ℝ) = 2 := by norm_num [cubeR]
  rw [hdist]
  have hpoint : (⟨1 / 2, 3, 1 / 2⟩ : Vec3) + (2 : ℝ) * (⟨0, -1, 0⟩ : Vec3) = ⟨1 / 2, 1, 1 / 2⟩ := by
    ext <;> norm_num
  rw [hpoint]
  have hmat : resolveMaterial cubeR ⟨1 / 2, 1, 1 / 2⟩ ⟨0, 1, 0⟩ = matR := rfl
  rw [hmat]

/-- In the witness scene the hit point is unshadowed: the bias-offset shadow
ray starts above the cube's top face and escapes upward. -/
theorem cast_shadow_itC : cast_shadow itC [lightW] [cubeR] 0 = 0 := by
  have hsub : lightW.position - itC.point = ⟨0, 10, 0⟩ := by
    ext <;> norm_num [lightW, itC]
  have hnorm : (lightW.position - itC.point).normalize = ⟨0, 1, 0⟩ := by
    rw [hsub, normalize_eval (c := 10) (by norm_num) (by norm_num)]
    ext <;> norm_num
  have horig : offset_origin itC ((lightW.position - itC.point).normalize) =
      ⟨1 / 2, 1 + 1 / 10000, 1 / 2⟩ := by
    rw [hnorm, offset_origin, if_neg (by norm_num [Vec3.dot, itC])]
    ext <;> norm_num [itC, ORIGIN_BIAS]
  have hmiss := ray_intersect_up_miss cubeR ⟨1 / 2, 1 + 1 / 10000, 1 / 2⟩ 1 (by norm_num)
    (by norm_num [cubeR]) (by norm_num [cubeR])
  rw [cast_shadow]
  dsimp only [List.getD_cons_zero]
  rw [horig, hnorm]
  simp only [shadowLoop]
  rw [hmiss, if_neg (by norm_num [Intersect.empty])]

/-- The lighting accumulation of the witness scene: diffuse `(8/5,0,0)` and
specular `(2,2,2)`. -/
theorem lighting_itC_eval :
    lightingSums itC [lightW] [cubeR] ⟨1 / 2, 3, 1 / 2⟩ = (⟨8 / 5, 0, 0⟩, ⟨2, 2, 2⟩) := by
  have hsub : lightW.position - itC.point = ⟨0, 10, 0⟩ := by
    ext <;> norm_num [lightW, itC]
  have hnorm : (lightW.position - itC.point).normalize = ⟨0, 1, 0⟩ := by
    rw [hsub, normalize_eval (c := 10) (by norm_num) (by norm_num)]
    ext <;> norm_num
  have hview : ((⟨1 / 2, 3, 1 / 2⟩ : Vec3) - itC.point).normalize = ⟨0, 1, 0⟩ := by
    have hv : (⟨1 / 2, 3, 1 / 2⟩ : Vec3) - itC.point = ⟨0, 2, 0⟩ := by
      ext <;> norm_num [itC]
    rw [hv, normalize_eval (c := 2) (by norm_num) (by norm_num)]
    ext <;> norm_num
  have hrefl : reflect (-(⟨0, 1, 0⟩ : Vec3)) itC.normal = ⟨0, 1, 0⟩ := by
    ext <;> norm_num [reflect, Vec3.dot, itC]
  have hrnorm : (⟨0, 1, 0⟩ : Vec3).normalize = ⟨0, 1, 0⟩ := by
    rw [normalize_eval (c := 1) (by norm_num) (by norm_num)]
    ext <;> norm_num
  rw [lightingSums]
  rw [show ([lightW] : List Light).enum = [(0, lightW)] from rfl]
  simp only [List.foldl_cons, List.foldl_nil]
  rw [cast_shadow_itC, hnorm, hview, hrefl, hrnorm]
  have hdot1 : itC.normal.dot ⟨0, 1, 0⟩ = 1 := by norm_num [Vec3.dot, itC]
  have hdot2 : (⟨0, 1, 0⟩ : Vec3).dot ⟨0, 1, 0⟩ = 1 := by norm_num [Vec3.dot]
  rw [hdot1, hdot2]
  have hmax : max (1 : ℝ) 0 = 1 := by norm_num
  rw [hmax]
  have hpow : (1 : ℝ) ^ itC.material.specular = 1 := Real.one_rpow _
  rw [hpow]
  rw [Prod.mk.injEq]
  constructor <;> ext <;> norm_num [itC, matR, lightW, Color.black]

/-- C5 counterexample: in the witness scene (opaque red cube, one white light
of intensity 2 directly above), `cast_ray` returns `(1,0,0)` — the clamp of
emissive + accumulated diffuse — which differs from emissive + accumulated
diffuse + accumulated specular as the claim demands. -/
theorem cast_ray_opaque_counterexample :
    cast_ray ⟨1 / 2, 3, 1 / 2⟩ ⟨0, -1, 0⟩ [cubeR] [lightW] 0 skyU = ⟨1, 0, 0⟩ ∧
    lightingSums (scanClosest [cubeR] ⟨1 / 2, 3, 1 / 2⟩ ⟨0, -1, 0⟩) [lightW] [cubeR]
      ⟨1 / 2, 3, 1 / 2⟩ = (⟨8 / 5, 0, 0⟩, ⟨2, 2, 2⟩) ∧
    (⟨1, 0, 0⟩ : Color) ≠
      (scanClosest [cubeR] ⟨1 / 2, 3, 1 / 2⟩ ⟨0, -1, 0⟩).material.emission +
        ⟨8 / 5, 0, 0⟩ + ⟨2, 2, 2⟩ := by
  have hkr : fresnel ⟨0, -1, 0⟩ itC.normal itC.material.refractive_index = 0 := by
    have heval := fresnel_eval ⟨0, -1, 0⟩ ⟨0, 1, 0⟩ 1 (-1) 0 1
      (by rw [Vec3.dot, clampR]; norm_num) le_rfl (by norm_num) (by norm_num)
      (by norm_num) (by norm_num)
    rw [show itC.normal = (⟨0, 1, 0⟩ : Vec3) from rfl,
      show itC.material.refractive_index = (1 : ℝ) from rfl, heval]
    norm_num
  refine ⟨?_, by rw [scan_cubeR_eval]; exact lighting_itC_eval, ?_⟩
  · rw [cast_ray, dif_neg (by norm_num)]
    dsimp only
    rw [scan_cubeR_eval]
    rw [if_neg (by norm_num [itC])]
    rw [lighting_itC_eval]
    rw [hkr, zero_mul]
    have ht : (1 - (0 : ℝ)) * itC.material.albedo 3 = 0 := by
      norm_num [itC, matR]
    rw [ht]
    rw [if_neg (lt_irrefl 0), if_neg (lt_irrefl 0)]
    ext <;> norm_num [itC, matR, Color.black, Color.clamp]
  · rw [scan_cubeR_eval]
    intro h
    have := congrArg Color.r h
    norm_num [itC, matR, Color.black] at this

/-- C5 witness: the amended statement instantiated in the witness scene. -/
theorem cast_ray_opaque_witness :
    cast_ray ⟨1 / 2, 3, 1 / 2⟩ ⟨0, -1, 0⟩ [cubeR] [lightW] 0 skyU =
      ((scanClosest [cubeR] ⟨1 / 2, 3, 1 / 2⟩ ⟨0, -1, 0⟩).material.emission +
        (lightingSums (scanClosest [cubeR] ⟨1 / 2, 3, 1 / 2⟩ ⟨0, -1, 0⟩) [lightW] [cubeR]
          ⟨1 / 2, 3, 1 / 2⟩).1).clamp :=
  cast_ray_opaque_amended _ _ _ _ 0 _ (by norm_num)
    (by rw [scan_cubeR_eval]; rfl) (by rw [scan_cubeR_eval]; rfl)
